import Mathlib

/-!
Verification development for the `simple-stream-audio-player` repository.

The embedding below is a shallow model of `src/stream-audio-player.ts`
(class `StreamAudioPlayer`).  Conventions of the model:

* Device times are rationals (`ℚ`).  `AudioContext.currentTime` readings are
  passed to each operation as an explicit `now` argument; within one
  synchronous drain pass the reading is taken once, matching the discrete
  control-thread event model of the specification (one control-thread event
  processes with one clock view).
* The `AudioContext` is non-null between operations: the constructor creates
  it and `reset` closes and immediately re-creates it, so the `!audioContext`
  guards of the source are invariantly false at operation boundaries and are
  not represented.  The context's running/suspended flag is kept as a `Bool`.
* `base64Data` is modelled after `atob` as the list of decoded bytes
  (each reduced mod 256 exactly as the `Uint8Array` store does);
  `Int16Array` construction over an odd number of bytes throws, which the
  spec's error taxonomy calls `DecodeError`.
* `AudioBufferSourceNode` identity (used by `indexOf`/`splice` and by the
  `onended` closure) is modelled by a monotonically increasing numeric id.
* Event listeners are modelled by numeric identifiers; `EventTarget`
  registration ignores duplicate additions, dispatch notifies the currently
  registered listeners in order, and `reset` installs a brand new target.
* `reset` is modelled atomically: the transient `resetting` window exists in
  the source only across `await` points, and completion callbacks delivered
  inside that window are swallowed by the `internalState === 'resetting'`
  guard, so at operation granularity a reset discards the in-flight sources
  together with their pending completions.
-/

/-- The five values of the `internalState` union type of the source. -/
inductive PlayerState where
  | idle
  | playing
  | paused
  | ended
  | resetting
deriving DecidableEq, Repr

/-- Error taxonomy of the specification: `InvalidStateError` is the
`Cannot add chunk while resetting` throw of `addChunk`, `DecodeError` is the
failure of `convertBase64ToAudioBuffer` (misaligned payload). -/
inductive PlayerError where
  | invalidStateError
  | decodeError
deriving DecidableEq, Repr

/-- A decoded mono `AudioBuffer`: the single channel's samples plus the
sample rate it was created with. -/
structure AudioBuffer where
  samples : List ℚ
  sampleRate : ℚ
deriving DecidableEq, Repr

/-- Duration of an `AudioBuffer` as the Web Audio API defines it:
`length / sampleRate`. -/
def AudioBuffer.duration (b : AudioBuffer) : ℚ :=
  (b.samples.length : ℚ) / b.sampleRate

/-- One in-flight `AudioBufferSourceNode`: the node identity, the buffer it
renders and the start time passed to `source.start`. -/
structure ScheduledSource where
  id : ℕ
  buffer : AudioBuffer
  startTime : ℚ
deriving DecidableEq, Repr

/-- Scheduled end of an in-flight source: its start plus its buffer's
duration. -/
def ScheduledSource.endTime (s : ScheduledSource) : ℚ :=
  s.startTime + s.buffer.duration

/-- The mutable fields of class `StreamAudioPlayer`, plus the bookkeeping the
shallow model needs (`nextSourceId` for node identity, `listeners` for the
current `EventTarget`, `ctxRunning` for the context's running/suspended
state). -/
structure StreamAudioPlayer where
  audioBufferQueue : List AudioBuffer
  internalState : PlayerState
  nextStartTime : ℚ
  scheduledBufferSources : List ScheduledSource
  nextSourceId : ℕ
  listeners : List ℕ
  ctxRunning : Bool
deriving DecidableEq, Repr

/-- The constructor: fresh context (whose initial running state depends on
the environment's autoplay policy, hence the parameter), fresh
`EventTarget`, empty queue, `idle`, `nextStartTime = 0`. -/
def initialPlayer (running : Bool) : StreamAudioPlayer :=
  { audioBufferQueue := []
    internalState := PlayerState.idle
    nextStartTime := 0
    scheduledBufferSources := []
    nextSourceId := 0
    listeners := []
    ctxRunning := running }

/-- Signed 16-bit little-endian value of a byte pair, as `Int16Array`
reads it: low byte first, two's complement.  The mod 256 reductions model
the `Uint8Array` byte store. -/
def toInt16 (lo hi : ℕ) : ℤ :=
  let u : ℤ := (lo % 256 : ℕ) + 256 * ((hi % 256 : ℕ) : ℤ)
  if u < 32768 then u else u - 65536

/-- The sequence of 16-bit values an `Int16Array` view exposes over a byte
sequence (consumed two bytes at a time, little-endian). -/
def int16Pairs : List ℕ → List ℤ
  | lo :: hi :: rest => toInt16 lo hi :: int16Pairs rest
  | _ => []

namespace StreamAudioPlayer

/-- Method `convertBase64ToAudioBuffer`, starting from the decoded bytes:
`new Int16Array(bytes.buffer)` throws on an odd byte count (the
`DecodeError` of the taxonomy); otherwise every 16-bit sample is divided by
`32768.0` (exact in float32 for this range, hence modelled in `ℚ`) and a
mono buffer at the given sample rate is returned. -/
def convertBase64ToAudioBuffer (bytes : List ℕ) (sampleRate : ℚ) :
    Except PlayerError AudioBuffer :=
  if bytes.length % 2 ≠ 0 then Except.error PlayerError.decodeError
  else Except.ok
    { samples := (int16Pairs bytes).map (fun v : ℤ => (v : ℚ) / 32768)
      sampleRate := sampleRate }

/-- Method `addChunk`: rejects while `resetting`, otherwise decodes and
appends the decoded buffer to `audioBufferQueue`. -/
def addChunk (p : StreamAudioPlayer) (bytes : List ℕ) (sampleRate : ℚ) :
    Except PlayerError StreamAudioPlayer :=
  if p.internalState = PlayerState.resetting then
    Except.error PlayerError.invalidStateError
  else
    match convertBase64ToAudioBuffer bytes sampleRate with
    | Except.error e => Except.error e
    | Except.ok audioBuffer =>
        Except.ok { p with audioBufferQueue := p.audioBufferQueue ++ [audioBuffer] }

/-- Recursion of method `scheduleNextBufferSource`, made structural on a
fuel bound: each recursive call of the source shifts exactly one buffer off
the queue, so running the body with fuel equal to the queue length is
exactly the source's recursion (the fuel never runs out before the queue
does).  Returns unchanged when the queue is empty or the state is not
`playing` (the `!audioContext` guard is invariantly false, see the header
note); otherwise shifts the front buffer, starts it at
`max nextStartTime now`, advances `nextStartTime` by the buffer's duration,
records the new source and recurses while the queue is non-empty. -/
def scheduleNextBufferSourceAux (now : ℚ) :
    ℕ → StreamAudioPlayer → StreamAudioPlayer
  | 0, p => p
  | fuel + 1, p =>
    match p.audioBufferQueue with
    | [] => p
    | audioBuffer :: rest =>
      if p.internalState = PlayerState.playing then
        let startTime := max p.nextStartTime now
        let source : ScheduledSource :=
          { id := p.nextSourceId, buffer := audioBuffer, startTime := startTime }
        scheduleNextBufferSourceAux now fuel
          { p with
            audioBufferQueue := rest
            nextStartTime := startTime + audioBuffer.duration
            scheduledBufferSources := p.scheduledBufferSources ++ [source]
            nextSourceId := p.nextSourceId + 1 }
      else p

/-- Method `scheduleNextBufferSource`: the synchronous drain pass at device
time `now`. -/
def scheduleNextBufferSource (now : ℚ) (p : StreamAudioPlayer) :
    StreamAudioPlayer :=
  scheduleNextBufferSourceAux now p.audioBufferQueue.length p

/-- Method `play` at device time `now`: no-op when already `playing`;
otherwise enters `playing`, resumes a suspended context, and if nothing is
in flight while the queue is non-empty, rebases `nextStartTime` to `now`
and drains. -/
def play (now : ℚ) (p : StreamAudioPlayer) : StreamAudioPlayer :=
  if p.internalState = PlayerState.playing then p
  else
    let p1 := { p with internalState := PlayerState.playing, ctxRunning := true }
    if p1.scheduledBufferSources = [] ∧ p1.audioBufferQueue ≠ [] then
      scheduleNextBufferSource now { p1 with nextStartTime := now }
    else p1

/-- Method `pause`: no-op unless `playing`; otherwise enters `paused` and
suspends the context. -/
def pause (p : StreamAudioPlayer) : StreamAudioPlayer :=
  if p.internalState ≠ PlayerState.playing then p
  else { p with internalState := PlayerState.paused, ctxRunning := false }

/-- Method `reset`, atomically: stops and discards all in-flight sources
(best-effort, errors swallowed), closes and re-creates the context (fresh
running flag from the environment), clears the queue, zeroes
`nextStartTime`, installs a new `EventTarget` and returns to `idle`.
`nextSourceId` is model bookkeeping for node identity and persists. -/
def reset (fresh : Bool) (p : StreamAudioPlayer) : StreamAudioPlayer :=
  { p with
    audioBufferQueue := []
    internalState := PlayerState.idle
    nextStartTime := 0
    scheduledBufferSources := []
    listeners := []
    ctxRunning := fresh }

/-- Method `addEventListener` on the current `EventTarget`: registering an
already-registered listener is a no-op, otherwise it is appended. -/
def addEventListener (p : StreamAudioPlayer) (l : ℕ) : StreamAudioPlayer :=
  if l ∈ p.listeners then p
  else { p with listeners := p.listeners ++ [l] }

/-- Method `removeEventListener` on the current `EventTarget`. -/
def removeEventListener (p : StreamAudioPlayer) (l : ℕ) : StreamAudioPlayer :=
  { p with listeners := p.listeners.erase l }

end StreamAudioPlayer

/-- First in-flight source whose node identity is `sid` (the node the
`onended` closure captured). -/
def findById : List ScheduledSource → ℕ → Option ScheduledSource
  | [], _ => none
  | s :: rest, sid => if s.id = sid then some s else findById rest sid

/-- The `indexOf`/`splice(index, 1)` pair of the `onended` callback: remove
the first in-flight source with the given identity, if present. -/
def removeFirstById : List ScheduledSource → ℕ → List ScheduledSource
  | [], _ => []
  | s :: rest, sid => if s.id = sid then rest else s :: removeFirstById rest sid

/-- Observable output of one control-thread event: whether the `ended`
event was dispatched, which listeners it notified, and the error surfaced
to the caller, if any. -/
structure StepOut where
  endedFired : Bool
  notified : List ℕ
  err : Option PlayerError
deriving DecidableEq, Repr

/-- Output of an event with no dispatch and no error. -/
def noOutput : StepOut :=
  { endedFired := false, notified := [], err := none }

namespace StreamAudioPlayer

/-- Body of the `onended` callback registered by `scheduleNextBufferSource`,
for the source with identity `sid`, processed at device time `now`: ignored
while `resetting`; otherwise removes the source from the in-flight list,
then either transitions to `ended` and dispatches the `ended` event (both
queue and in-flight list empty) or drains further (queue non-empty). -/
def handleSourceEnded (p : StreamAudioPlayer) (sid : ℕ) (now : ℚ) :
    StreamAudioPlayer × StepOut :=
  if p.internalState = PlayerState.resetting then (p, noOutput)
  else
    let p1 := { p with
      scheduledBufferSources := removeFirstById p.scheduledBufferSources sid }
    if p1.scheduledBufferSources = [] ∧ p1.audioBufferQueue = [] then
      let p2 := { p1 with internalState := PlayerState.ended }
      (p2, { endedFired := true, notified := p2.listeners, err := none })
    else if p1.audioBufferQueue ≠ [] then
      (scheduleNextBufferSource now p1, noOutput)
    else (p1, noOutput)

end StreamAudioPlayer

/-- The control-thread events: the four caller operations (with the device
clock reading where the source reads `currentTime`), a device completion
notification for one source, and listener management. -/
inductive Op where
  | addChunk (bytes : List ℕ) (sampleRate : ℚ)
  | play (now : ℚ)
  | pause
  | reset (fresh : Bool)
  | complete (sid : ℕ) (now : ℚ)
  | addListener (l : ℕ)
  | removeListener (l : ℕ)
deriving DecidableEq, Repr

/-- One control-thread event: the resulting player and the observable
output.  A failing `addChunk` leaves the player unchanged and surfaces the
error. -/
def step (p : StreamAudioPlayer) : Op → StreamAudioPlayer × StepOut
  | Op.addChunk bytes rate =>
      match p.addChunk bytes rate with
      | Except.ok p1 => (p1, noOutput)
      | Except.error e => (p, { noOutput with err := some e })
  | Op.play now => (StreamAudioPlayer.play now p, noOutput)
  | Op.pause => (p.pause, noOutput)
  | Op.reset fresh => (StreamAudioPlayer.reset fresh p, noOutput)
  | Op.complete sid now => p.handleSourceEnded sid now
  | Op.addListener l => (p.addEventListener l, noOutput)
  | Op.removeListener l => (p.removeEventListener l, noOutput)

/-- Latest device-clock reading after an event (`0` initially; `play` and
completion notifications carry fresh readings). -/
def stepT (t : ℚ) : Op → ℚ
  | Op.play now => max t now
  | Op.complete _ now => max t now
  | _ => t

/-- Run a sequence of control-thread events, threading the player and the
latest clock reading. -/
def runPT (p : StreamAudioPlayer) (t : ℚ) : List Op → StreamAudioPlayer × ℚ
  | [] => (p, t)
  | op :: rest => runPT (step p op).1 (stepT t op) rest

/-- Player reached from a fresh `StreamAudioPlayer` (context initially
running iff `c`) by a sequence of control-thread events. -/
def playerAfter (c : Bool) (ops : List Op) : StreamAudioPlayer :=
  (runPT (initialPlayer c) 0 ops).1

/-- Device contract for one event, given the latest clock reading `t`:
clock readings are monotone (spec: the context clock is monotonic), sample
rates of enqueued chunks are positive (Web Audio `createBuffer` accepts
only positive rates), and a completion notification refers to an in-flight
source whose scheduled end has been reached (the device fires `onended`
exactly once per source, when its samples are exhausted; notifications for
sources stopped by `reset` are absorbed by the atomic reset, see the
header note). -/
def WFop (p : StreamAudioPlayer) (t : ℚ) : Op → Prop
  | Op.addChunk _ rate => 0 < rate
  | Op.play now => t ≤ now
  | Op.complete sid now =>
      t ≤ now ∧ ∃ s, findById p.scheduledBufferSources sid = some s ∧
        s.endTime ≤ now
  | _ => True

/-- Well-formed event sequence from a given player and latest clock
reading: every event satisfies the device contract at the state it is
processed in. -/
def WFfrom (p : StreamAudioPlayer) (t : ℚ) : List Op → Prop
  | [] => True
  | op :: rest => WFop p t op ∧ WFfrom (step p op).1 (stepT t op) rest

instance decidableExistsFindById (l : List ScheduledSource) (sid : ℕ)
    (P : ScheduledSource → Prop) [DecidablePred P] :
    Decidable (∃ s, findById l sid = some s ∧ P s) :=
  match h : findById l sid with
  | none => Decidable.isFalse (by
      rintro ⟨s, hs, -⟩
      exact Option.noConfusion hs)
  | some s =>
      if hp : P s then Decidable.isTrue ⟨s, rfl, hp⟩
      else Decidable.isFalse (by
        rintro ⟨s1, hs1, hp1⟩
        cases hs1
        exact hp hp1)

instance decidableWFop (p : StreamAudioPlayer) (t : ℚ) (op : Op) :
    Decidable (WFop p t op) :=
  match op with
  | Op.addChunk _ rate => inferInstanceAs (Decidable (0 < rate))
  | Op.play now => inferInstanceAs (Decidable (t ≤ now))
  | Op.pause => inferInstanceAs (Decidable True)
  | Op.reset _ => inferInstanceAs (Decidable True)
  | Op.complete sid now => inferInstanceAs (Decidable (_ ∧ _))
  | Op.addListener _ => inferInstanceAs (Decidable True)
  | Op.removeListener _ => inferInstanceAs (Decidable True)

def decidableWFfrom (p : StreamAudioPlayer) (t : ℚ) :
    (ops : List Op) → Decidable (WFfrom p t ops)
  | [] => Decidable.isTrue trivial
  | op :: rest =>
      have d1 : Decidable (WFop p t op) := inferInstance
      have d2 : Decidable (WFfrom (step p op).1 (stepT t op) rest) :=
        decidableWFfrom (step p op).1 (stepT t op) rest
      inferInstanceAs (Decidable (_ ∧ _))

instance (p : StreamAudioPlayer) (t : ℚ) (ops : List Op) :
    Decidable (WFfrom p t ops) :=
  decidableWFfrom p t ops

section StateSimp

@[simp] theorem idle_ne_playing :
    (PlayerState.idle = PlayerState.playing) ↔ False := by simp

@[simp] theorem paused_ne_playing :
    (PlayerState.paused = PlayerState.playing) ↔ False := by simp

@[simp] theorem ended_ne_playing :
    (PlayerState.ended = PlayerState.playing) ↔ False := by simp

@[simp] theorem resetting_ne_playing :
    (PlayerState.resetting = PlayerState.playing) ↔ False := by simp

@[simp] theorem idle_ne_resetting :
    (PlayerState.idle = PlayerState.resetting) ↔ False := by simp

@[simp] theorem playing_ne_resetting :
    (PlayerState.playing = PlayerState.resetting) ↔ False := by simp

@[simp] theorem paused_ne_resetting :
    (PlayerState.paused = PlayerState.resetting) ↔ False := by simp

@[simp] theorem ended_ne_resetting :
    (PlayerState.ended = PlayerState.resetting) ↔ False := by simp

end StateSimp

section FindRemove

theorem findById_mem {l : List ScheduledSource} {sid : ℕ} {s : ScheduledSource}
    (h : findById l sid = some s) : s ∈ l ∧ s.id = sid := by
  induction l with
  | nil => exact Option.noConfusion h
  | cons a rest ih =>
      unfold findById at h
      by_cases ha : a.id = sid
      · rw [if_pos ha] at h
        cases h
        exact ⟨List.mem_cons_self _ _, ha⟩
      · rw [if_neg ha] at h
        rcases ih h with ⟨h1, h2⟩
        exact ⟨List.mem_cons_of_mem a h1, h2⟩

theorem removeFirstById_of_none {l : List ScheduledSource} {sid : ℕ}
    (h : findById l sid = none) : removeFirstById l sid = l := by
  induction l with
  | nil => rfl
  | cons a rest ih =>
      unfold findById at h
      unfold removeFirstById
      by_cases ha : a.id = sid
      · rw [if_pos ha] at h
        exact Option.noConfusion h
      · rw [if_neg ha] at h
        rw [if_neg ha, ih h]

theorem removeFirstById_split {l : List ScheduledSource} {sid : ℕ}
    {s : ScheduledSource} (h : findById l sid = some s) :
    ∃ l1 l2, l = l1 ++ s :: l2 ∧ removeFirstById l sid = l1 ++ l2 := by
  induction l with
  | nil => exact Option.noConfusion h
  | cons a rest ih =>
      unfold findById at h
      unfold removeFirstById
      by_cases ha : a.id = sid
      · rw [if_pos ha] at h
        cases h
        exact ⟨[], rest, rfl, by rw [if_pos ha, List.nil_append]⟩
      · rw [if_neg ha] at h
        rcases ih h with ⟨l1, l2, hl, hr⟩
        refine ⟨a :: l1, l2, by rw [hl]; rfl, ?_⟩
        rw [if_neg ha, hr, List.cons_append]

theorem mem_of_mem_removeFirstById {l : List ScheduledSource} {sid : ℕ}
    {x : ScheduledSource} (h : x ∈ removeFirstById l sid) : x ∈ l := by
  induction l with
  | nil => exact absurd h (List.not_mem_nil x)
  | cons a rest ih =>
      unfold removeFirstById at h
      by_cases ha : a.id = sid
      · rw [if_pos ha] at h
        exact List.mem_cons_of_mem a h
      · rw [if_neg ha] at h
        rcases List.mem_cons.mp h with h1 | h1
        · exact h1 ▸ List.mem_cons_self a rest
        · exact List.mem_cons_of_mem a (ih h1)

theorem removeFirstById_nil_of_nil {l : List ScheduledSource} {sid : ℕ}
    (h : l = []) : removeFirstById l sid = [] := by
  rw [h]; rfl

theorem findById_eq_of_not_mem_remove {l : List ScheduledSource} {sid : ℕ}
    {x : ScheduledSource} (hx : x ∈ l)
    (hnx : x ∉ removeFirstById l sid) : findById l sid = some x := by
  cases hf : findById l sid with
  | none =>
      rw [removeFirstById_of_none hf] at hnx
      exact absurd hx hnx
  | some s =>
      rcases removeFirstById_split hf with ⟨l1, l2, hl, hr⟩
      rw [hr] at hnx
      rw [hl] at hx
      rcases List.mem_append.mp hx with h1 | h1
      · exact absurd (List.mem_append.mpr (Or.inl h1)) hnx
      · rcases List.mem_cons.mp h1 with h2 | h2
        · rw [h2]
        · exact absurd (List.mem_append.mpr (Or.inr h2)) hnx

end FindRemove



section DrainLemmas

open StreamAudioPlayer

/-- Consecutive gapless scheduling: the second source starts exactly where
the first one ends. -/
def abuts (s1 s2 : ScheduledSource) : Prop :=
  s2.startTime = s1.startTime + s1.buffer.duration

/-- The player after one scheduling step of the drain pass on front buffer
`b` (shorthand for the recursive argument of
`scheduleNextBufferSourceAux`). -/
def scheduledOne (now : ℚ) (b : AudioBuffer) (rest : List AudioBuffer)
    (p : StreamAudioPlayer) : StreamAudioPlayer :=
  { p with
    audioBufferQueue := rest
    nextStartTime := max p.nextStartTime now + b.duration
    scheduledBufferSources := p.scheduledBufferSources ++
      [⟨p.nextSourceId, b, max p.nextStartTime now⟩]
    nextSourceId := p.nextSourceId + 1 }

@[simp] theorem scheduledOne_queue (now : ℚ) (b : AudioBuffer)
    (rest : List AudioBuffer) (p : StreamAudioPlayer) :
    (scheduledOne now b rest p).audioBufferQueue = rest := rfl

@[simp] theorem scheduledOne_state (now : ℚ) (b : AudioBuffer)
    (rest : List AudioBuffer) (p : StreamAudioPlayer) :
    (scheduledOne now b rest p).internalState = p.internalState := rfl

@[simp] theorem scheduledOne_next (now : ℚ) (b : AudioBuffer)
    (rest : List AudioBuffer) (p : StreamAudioPlayer) :
    (scheduledOne now b rest p).nextStartTime
      = max p.nextStartTime now + b.duration := rfl

@[simp] theorem scheduledOne_sources (now : ℚ) (b : AudioBuffer)
    (rest : List AudioBuffer) (p : StreamAudioPlayer) :
    (scheduledOne now b rest p).scheduledBufferSources
      = p.scheduledBufferSources ++
          [⟨p.nextSourceId, b, max p.nextStartTime now⟩] := rfl

@[simp] theorem scheduledOne_listeners (now : ℚ) (b : AudioBuffer)
    (rest : List AudioBuffer) (p : StreamAudioPlayer) :
    (scheduledOne now b rest p).listeners = p.listeners := rfl

@[simp] theorem scheduledOne_ctx (now : ℚ) (b : AudioBuffer)
    (rest : List AudioBuffer) (p : StreamAudioPlayer) :
    (scheduledOne now b rest p).ctxRunning = p.ctxRunning := rfl

theorem scheduleAux_zero (now : ℚ) (p : StreamAudioPlayer) :
    scheduleNextBufferSourceAux now 0 p = p := rfl

theorem scheduleAux_succ_nil (now : ℚ) (fuel : ℕ) (p : StreamAudioPlayer)
    (hq : p.audioBufferQueue = []) :
    scheduleNextBufferSourceAux now (fuel + 1) p = p := by
  unfold scheduleNextBufferSourceAux
  rw [hq]

theorem scheduleAux_succ_not_playing (now : ℚ) (fuel : ℕ)
    (p : StreamAudioPlayer) (hst : p.internalState ≠ PlayerState.playing) :
    scheduleNextBufferSourceAux now (fuel + 1) p = p := by
  unfold scheduleNextBufferSourceAux
  cases hq : p.audioBufferQueue with
  | nil => rfl
  | cons b rest =>
      dsimp only
      rw [if_neg hst]

theorem scheduleAux_succ_cons (now : ℚ) (fuel : ℕ) (p : StreamAudioPlayer)
    (b : AudioBuffer) (rest : List AudioBuffer)
    (hq : p.audioBufferQueue = b :: rest)
    (hst : p.internalState = PlayerState.playing) :
    scheduleNextBufferSourceAux now (fuel + 1) p
      = scheduleNextBufferSourceAux now fuel (scheduledOne now b rest p) := by
  conv_lhs => rw [scheduleNextBufferSourceAux]
  rw [hq]
  dsimp only
  rw [if_pos hst]
  rfl

theorem scheduleAux_bookkeeping (now : ℚ) (fuel : ℕ) :
    ∀ p : StreamAudioPlayer,
      (scheduleNextBufferSourceAux now fuel p).internalState = p.internalState ∧
      (scheduleNextBufferSourceAux now fuel p).listeners = p.listeners ∧
      (scheduleNextBufferSourceAux now fuel p).ctxRunning = p.ctxRunning := by
  induction fuel with
  | zero => intro p; exact ⟨rfl, rfl, rfl⟩
  | succ fuel ih =>
      intro p
      rcases hq : p.audioBufferQueue with - | ⟨b, rest⟩
      · rw [scheduleAux_succ_nil now fuel p hq]
        exact ⟨rfl, rfl, rfl⟩
      · by_cases hst : p.internalState = PlayerState.playing
        · rw [scheduleAux_succ_cons now fuel p b rest hq hst]
          rcases ih (scheduledOne now b rest p) with ⟨h1, h2, h3⟩
          rw [h1, h2, h3]
          exact ⟨rfl, rfl, rfl⟩
        · rw [scheduleAux_succ_not_playing now fuel p hst]
          exact ⟨rfl, rfl, rfl⟩

theorem scheduleAux_next_mono (now : ℚ) (fuel : ℕ) :
    ∀ p : StreamAudioPlayer,
      (∀ b ∈ p.audioBufferQueue, 0 ≤ b.duration) →
      p.nextStartTime ≤ (scheduleNextBufferSourceAux now fuel p).nextStartTime := by
  induction fuel with
  | zero => intro p _; exact le_refl _
  | succ fuel ih =>
      intro p hdur
      rcases hq : p.audioBufferQueue with - | ⟨b, rest⟩
      · rw [scheduleAux_succ_nil now fuel p hq]
      · by_cases hst : p.internalState = PlayerState.playing
        · rw [scheduleAux_succ_cons now fuel p b rest hq hst]
          have hdurb : 0 ≤ b.duration :=
            hdur b (by rw [hq]; exact List.mem_cons_self _ _)
          have hdur2 : ∀ x ∈ (scheduledOne now b rest p).audioBufferQueue,
              0 ≤ x.duration := by
            intro x hx
            rw [scheduledOne_queue] at hx
            exact hdur x (by rw [hq]; exact List.mem_cons_of_mem _ hx)
          refine le_trans ?_ (ih (scheduledOne now b rest p) hdur2)
          rw [scheduledOne_next]
          have hm : p.nextStartTime ≤ max p.nextStartTime now := le_max_left _ _
          linarith
        · rw [scheduleAux_succ_not_playing now fuel p hst]

theorem scheduleAux_queue_sub (now : ℚ) (fuel : ℕ) :
    ∀ p : StreamAudioPlayer,
      ∀ b ∈ (scheduleNextBufferSourceAux now fuel p).audioBufferQueue,
        b ∈ p.audioBufferQueue := by
  induction fuel with
  | zero => intro p b hb; exact hb
  | succ fuel ih =>
      intro p
      rcases hq : p.audioBufferQueue with - | ⟨b, rest⟩
      · rw [scheduleAux_succ_nil now fuel p hq]
        intro x hx
        rw [hq] at hx
        exact hx
      · by_cases hst : p.internalState = PlayerState.playing
        · rw [scheduleAux_succ_cons now fuel p b rest hq hst]
          intro x hx
          have h1 := ih (scheduledOne now b rest p) x hx
          rw [scheduledOne_queue] at h1
          exact List.mem_cons_of_mem _ h1
        · rw [scheduleAux_succ_not_playing now fuel p hst]
          intro x hx
          rw [hq] at hx
          exact List.mem_cons.mpr (List.mem_cons.mp hx)

theorem scheduleAux_new_sources (now : ℚ) (fuel : ℕ) :
    ∀ p : StreamAudioPlayer,
      (∀ b ∈ p.audioBufferQueue, 0 ≤ b.duration) →
      ∃ ns : List ScheduledSource,
        (scheduleNextBufferSourceAux now fuel p).scheduledBufferSources
          = p.scheduledBufferSources ++ ns ∧
        List.Chain' abuts ns ∧
        (∀ hd : ScheduledSource, ns.head? = some hd →
          hd.startTime = max p.nextStartTime now) ∧
        (∀ s ∈ ns,
          s.endTime ≤ (scheduleNextBufferSourceAux now fuel p).nextStartTime) ∧
        ((scheduleNextBufferSourceAux now fuel p).nextStartTime = p.nextStartTime
          ∨ ∃ s ∈ ns,
              s.endTime = (scheduleNextBufferSourceAux now fuel p).nextStartTime) ∧
        (ns ≠ [] → p.internalState = PlayerState.playing) ∧
        (p.internalState = PlayerState.playing → p.audioBufferQueue ≠ [] →
          p.audioBufferQueue.length ≤ fuel → ns ≠ []) := by
  induction fuel with
  | zero =>
      intro p _
      refine ⟨[], by simp [scheduleAux_zero], List.chain'_nil,
        ?_, ?_, Or.inl rfl, ?_, ?_⟩
      · intro hd h; exact Option.noConfusion h
      · intro s hs; exact absurd hs (List.not_mem_nil s)
      · intro h; exact absurd rfl h
      · intro _ hq hlen
        exact absurd (List.eq_nil_of_length_eq_zero (Nat.le_zero.mp hlen)) hq
  | succ fuel ih =>
      intro p hdur
      rcases hq : p.audioBufferQueue with - | ⟨b, rest⟩
      · rw [scheduleAux_succ_nil now fuel p hq]
        refine ⟨[], by simp, List.chain'_nil, ?_, ?_, Or.inl rfl, ?_, ?_⟩
        · intro hd h; exact Option.noConfusion h
        · intro s hs; exact absurd hs (List.not_mem_nil s)
        · intro h; exact absurd rfl h
        · intro _ hqne _; exact absurd rfl hqne
      · by_cases hst : p.internalState = PlayerState.playing
        · rw [scheduleAux_succ_cons now fuel p b rest hq hst]
          have hdurb : 0 ≤ b.duration :=
            hdur b (by rw [hq]; exact List.mem_cons_self _ _)
          have hdur2 : ∀ x ∈ (scheduledOne now b rest p).audioBufferQueue,
              0 ≤ x.duration := by
            intro x hx
            rw [scheduledOne_queue] at hx
            exact hdur x (by rw [hq]; exact List.mem_cons_of_mem _ hx)
          rcases ih (scheduledOne now b rest p) hdur2
            with ⟨ns1, h1, h2, h3, h4, h5, h6, h7⟩
          rw [scheduledOne_sources] at h1
          rw [scheduledOne_next] at h3
          refine ⟨(⟨p.nextSourceId, b, max p.nextStartTime now⟩ :
              ScheduledSource) :: ns1, ?_, ?_, ?_, ?_, ?_, ?_, ?_⟩
          · rw [h1, List.append_assoc]
            rfl
          · refine List.chain'_cons'.mpr ⟨?_, h2⟩
            intro y hy
            have hy1 := h3 y hy
            show y.startTime = max p.nextStartTime now + b.duration
            rw [hy1]
            refine max_eq_left ?_
            have hmr : now ≤ max p.nextStartTime now := le_max_right _ _
            linarith
          · intro hd h
            rw [List.head?_cons] at h
            cases h
            rfl
          · intro s hs
            rcases List.mem_cons.mp hs with h | h
            · rw [h]
              have hmono := scheduleAux_next_mono now fuel
                (scheduledOne now b rest p) hdur2
              rw [scheduledOne_next] at hmono
              show (⟨p.nextSourceId, b, max p.nextStartTime now⟩ :
                ScheduledSource).startTime + b.duration ≤ _
              exact hmono
            · exact h4 s h
          · rcases h5 with h | ⟨s, hs, he⟩
            · rw [h, scheduledOne_next]
              exact Or.inr ⟨⟨p.nextSourceId, b, max p.nextStartTime now⟩,
                List.mem_cons_self _ _, rfl⟩
            · exact Or.inr ⟨s, List.mem_cons_of_mem _ hs, he⟩
          · intro _; exact hst
          · intro _ _ _; exact List.cons_ne_nil _ _
        · rw [scheduleAux_succ_not_playing now fuel p hst]
          refine ⟨[], by simp, List.chain'_nil, ?_, ?_, Or.inl rfl, ?_, ?_⟩
          · intro hd h; exact Option.noConfusion h
          · intro s hs; exact absurd hs (List.not_mem_nil s)
          · intro h; exact absurd rfl h
          · intro hpl _ _; exact absurd hpl hst

end DrainLemmas


section Invariant

open StreamAudioPlayer

/-- Structural invariant of reachable player states, relative to the latest
device-clock reading `t`: queued buffers have non-negative durations, every
in-flight source ends no later than `nextStartTime`, `nextStartTime` is
either already in the past (at most `t`) or witnessed by an in-flight
source ending exactly at it, and in-flight sources exist only while
`playing` or `paused`. -/
def PlayerInvCore (p : StreamAudioPlayer) (t : ℚ) : Prop :=
  (∀ b ∈ p.audioBufferQueue, 0 ≤ b.duration) ∧
  (∀ s ∈ p.scheduledBufferSources, s.endTime ≤ p.nextStartTime) ∧
  (p.nextStartTime ≤ t ∨
    ∃ s ∈ p.scheduledBufferSources, s.endTime = p.nextStartTime) ∧
  (p.scheduledBufferSources = [] ∨ p.internalState = PlayerState.playing
    ∨ p.internalState = PlayerState.paused)

/-- Invariant of reachable states: a non-negative latest clock reading plus
the structural core. -/
def PlayerInv (p : StreamAudioPlayer) (t : ℚ) : Prop :=
  0 ≤ t ∧ PlayerInvCore p t

theorem PlayerInvCore_mono_t {p : StreamAudioPlayer} {t t2 : ℚ}
    (h : PlayerInvCore p t) (hle : t ≤ t2) : PlayerInvCore p t2 := by
  rcases h with ⟨h2, h3, h4, h5⟩
  refine ⟨h2, h3, ?_, h5⟩
  rcases h4 with h | h
  · exact Or.inl (h.trans hle)
  · exact Or.inr h

theorem PlayerInv_mono_t {p : StreamAudioPlayer} {t t2 : ℚ}
    (h : PlayerInv p t) (hle : t ≤ t2) : PlayerInv p t2 :=
  ⟨h.1.trans hle, PlayerInvCore_mono_t h.2 hle⟩

theorem PlayerInvCore_schedule {p : StreamAudioPlayer} {t : ℚ} (now : ℚ)
    (h : PlayerInvCore p t) :
    PlayerInvCore (scheduleNextBufferSource now p) t := by
  rcases h with ⟨h2, h3, h4, h5⟩
  unfold scheduleNextBufferSource
  rcases scheduleAux_new_sources now p.audioBufferQueue.length p h2
    with ⟨ns, hsrc, -, -, hends, hdisj, hnsplay, -⟩
  rcases scheduleAux_bookkeeping now p.audioBufferQueue.length p
    with ⟨hstate, -, -⟩
  have hmono := scheduleAux_next_mono now p.audioBufferQueue.length p h2
  refine ⟨?_, ?_, ?_, ?_⟩
  · intro b hb
    exact h2 b (scheduleAux_queue_sub now p.audioBufferQueue.length p b hb)
  · intro s hs
    rw [hsrc] at hs
    rcases List.mem_append.mp hs with h | h
    · exact (h3 s h).trans hmono
    · exact hends s h
  · rcases hdisj with h | ⟨s, hs, he⟩
    · rw [h]
      rcases h4 with h1 | ⟨s, hs, he⟩
      · exact Or.inl h1
      · refine Or.inr ⟨s, ?_, he⟩
        rw [hsrc]
        exact List.mem_append.mpr (Or.inl hs)
    · refine Or.inr ⟨s, ?_, he⟩
      rw [hsrc]
      exact List.mem_append.mpr (Or.inr hs)
  · by_cases hns : ns = []
    · rw [hsrc, hns, List.append_nil, hstate]
      exact h5
    · rw [hstate]
      exact Or.inr (Or.inl (hnsplay hns))

theorem PlayerInv_play {p : StreamAudioPlayer} {t : ℚ} (now : ℚ)
    (h : PlayerInv p t) (ht : t ≤ now) :
    PlayerInv (play now p) (max t now) := by
  have h0 : (0:ℚ) ≤ max t now := le_trans h.1 (le_max_left _ _)
  rcases h with ⟨h1, h2, h3, h4, h5⟩
  unfold play
  by_cases hpl : p.internalState = PlayerState.playing
  · rw [if_pos hpl]
    exact ⟨h0, PlayerInvCore_mono_t ⟨h2, h3, h4, h5⟩ (le_max_left _ _)⟩
  · rw [if_neg hpl]
    dsimp only
    by_cases hg : p.scheduledBufferSources = [] ∧ p.audioBufferQueue ≠ []
    · rw [if_pos hg]
      refine ⟨h0, PlayerInvCore_schedule now ?_⟩
      refine ⟨h2, ?_, ?_, ?_⟩
      · intro s hs
        exact absurd (hg.1 ▸ hs) (List.not_mem_nil s)
      · exact Or.inl (le_max_right t now)
      · exact Or.inr (Or.inl rfl)
    · rw [if_neg hg]
      refine ⟨h0, h2, h3, ?_, Or.inr (Or.inl rfl)⟩
      rcases h4 with h | h
      · exact Or.inl (h.trans (le_max_left _ _))
      · exact Or.inr h

theorem PlayerInv_pause {p : StreamAudioPlayer} {t : ℚ}
    (h : PlayerInv p t) : PlayerInv p.pause t := by
  rcases h with ⟨h1, h2, h3, h4, h5⟩
  unfold pause
  by_cases hpl : p.internalState ≠ PlayerState.playing
  · rw [if_pos hpl]
    exact ⟨h1, h2, h3, h4, h5⟩
  · rw [if_neg hpl]
    exact ⟨h1, h2, h3, h4, Or.inr (Or.inr rfl)⟩

theorem PlayerInv_reset {p : StreamAudioPlayer} {t : ℚ} (fresh : Bool)
    (h : PlayerInv p t) : PlayerInv (reset fresh p) t := by
  refine ⟨h.1, ?_, ?_, Or.inl h.1, Or.inl rfl⟩
  · intro b hb
    exact absurd hb (List.not_mem_nil b)
  · intro s hs
    exact absurd hs (List.not_mem_nil s)

theorem PlayerInv_addChunk {p : StreamAudioPlayer} {t : ℚ}
    {bytes : List ℕ} {rate : ℚ} (hrate : 0 < rate)
    (h : PlayerInv p t) :
    PlayerInv (step p (Op.addChunk bytes rate)).1 t := by
  rcases h with ⟨h1, h2, h3, h4, h5⟩
  show PlayerInv (match p.addChunk bytes rate with
    | Except.ok p1 => (p1, noOutput)
    | Except.error e => (p, { noOutput with err := some e })).1 t
  unfold addChunk
  by_cases hrs : p.internalState = PlayerState.resetting
  · rw [if_pos hrs]
    exact ⟨h1, h2, h3, h4, h5⟩
  · rw [if_neg hrs]
    unfold convertBase64ToAudioBuffer
    by_cases hodd : bytes.length % 2 ≠ 0
    · rw [if_pos hodd]
      exact ⟨h1, h2, h3, h4, h5⟩
    · rw [if_neg hodd]
      refine ⟨h1, ?_, h3, h4, h5⟩
      intro b hb
      rcases List.mem_append.mp hb with hm | hm
      · exact h2 b hm
      · rcases List.mem_singleton.mp hm with rfl
        show (0:ℚ) ≤ _ / rate
        exact div_nonneg (Nat.cast_nonneg _) (le_of_lt hrate)

theorem PlayerInv_complete {p : StreamAudioPlayer} {t : ℚ}
    {sid : ℕ} {now : ℚ} (ht : t ≤ now)
    (hfind : ∃ s, findById p.scheduledBufferSources sid = some s ∧
      s.endTime ≤ now)
    (h : PlayerInv p t) :
    PlayerInv (p.handleSourceEnded sid now).1 (max t now) := by
  have h0 : (0:ℚ) ≤ max t now := le_trans h.1 (le_max_left _ _)
  rcases h with ⟨h1, h2, h3, h4, h5⟩
  rcases hfind with ⟨s, hf, hend⟩
  unfold handleSourceEnded
  by_cases hrs : p.internalState = PlayerState.resetting
  · rw [if_pos hrs]
    exact ⟨h0, PlayerInvCore_mono_t ⟨h2, h3, h4, h5⟩ (le_max_left _ _)⟩
  · rw [if_neg hrs]
    dsimp only
    have hc3 : ∀ x ∈ removeFirstById p.scheduledBufferSources sid,
        x.endTime ≤ p.nextStartTime := by
      intro x hx
      exact h3 x (mem_of_mem_removeFirstById hx)
    have hc4 : p.nextStartTime ≤ max t now ∨
        ∃ x ∈ removeFirstById p.scheduledBufferSources sid,
          x.endTime = p.nextStartTime := by
      rcases h4 with h | ⟨s0, hs0, he0⟩
      · exact Or.inl (h.trans (le_max_left _ _))
      · by_cases hmem : s0 ∈ removeFirstById p.scheduledBufferSources sid
        · exact Or.inr ⟨s0, hmem, he0⟩
        · have heq : findById p.scheduledBufferSources sid = some s0 :=
            findById_eq_of_not_mem_remove hs0 hmem
          rw [hf] at heq
          cases heq
          exact Or.inl (le_trans (he0 ▸ hend) (le_max_right t now))
    have hc5 : removeFirstById p.scheduledBufferSources sid = [] ∨
        p.internalState = PlayerState.playing ∨
        p.internalState = PlayerState.paused := by
      rcases h5 with h | h
      · exact Or.inl (removeFirstById_nil_of_nil h)
      · exact Or.inr h
    by_cases hboth : removeFirstById p.scheduledBufferSources sid = [] ∧
        p.audioBufferQueue = []
    · rw [if_pos hboth]
      refine ⟨h0, h2, ?_, ?_, Or.inl hboth.1⟩
      · intro x hx
        exact hc3 x hx
      · rcases hc4 with h | ⟨x, hx, -⟩
        · exact Or.inl h
        · rw [hboth.1] at hx
          exact absurd hx (List.not_mem_nil x)
    · rw [if_neg hboth]
      by_cases hqne : p.audioBufferQueue ≠ []
      · rw [if_pos hqne]
        exact ⟨h0, PlayerInvCore_schedule now ⟨h2, hc3, hc4, hc5⟩⟩
      · rw [if_neg hqne]
        exact ⟨h0, h2, hc3, hc4, hc5⟩

theorem PlayerInv_step {p : StreamAudioPlayer} {t : ℚ} {op : Op}
    (h : PlayerInv p t) (hwf : WFop p t op) :
    PlayerInv (step p op).1 (stepT t op) := by
  cases op with
  | addChunk bytes rate => exact PlayerInv_addChunk hwf h
  | play now => exact PlayerInv_play now h hwf
  | pause => exact PlayerInv_pause h
  | reset fresh => exact PlayerInv_reset fresh h
  | complete sid now => exact PlayerInv_complete hwf.1 hwf.2 h
  | addListener l =>
      rcases h with ⟨h1, h2, h3, h4, h5⟩
      show PlayerInv (p.addEventListener l) t
      unfold addEventListener
      by_cases hl : l ∈ p.listeners
      · rw [if_pos hl]
        exact ⟨h1, h2, h3, h4, h5⟩
      · rw [if_neg hl]
        exact ⟨h1, h2, h3, h4, h5⟩
  | removeListener l =>
      rcases h with ⟨h1, h2, h3, h4, h5⟩
      exact ⟨h1, h2, h3, h4, h5⟩

end Invariant

section TraceLemmas

open StreamAudioPlayer

theorem runPT_append (l1 l2 : List Op) :
    ∀ (p : StreamAudioPlayer) (t : ℚ),
      runPT p t (l1 ++ l2)
        = runPT (runPT p t l1).1 (runPT p t l1).2 l2 := by
  induction l1 with
  | nil => intro p t; rfl
  | cons op rest ih =>
      intro p t
      show runPT (step p op).1 (stepT t op) (rest ++ l2) = _
      rw [ih]
      rfl

theorem WFfrom_append (l1 l2 : List Op) :
    ∀ (p : StreamAudioPlayer) (t : ℚ),
      WFfrom p t (l1 ++ l2) ↔
        WFfrom p t l1 ∧ WFfrom (runPT p t l1).1 (runPT p t l1).2 l2 := by
  induction l1 with
  | nil =>
      intro p t
      show WFfrom p t l2 ↔ True ∧ WFfrom p t l2
      rw [true_and]
  | cons op rest ih =>
      intro p t
      show WFop p t op ∧ WFfrom (step p op).1 (stepT t op) (rest ++ l2) ↔
        (WFop p t op ∧ WFfrom (step p op).1 (stepT t op) rest) ∧
          WFfrom (runPT (step p op).1 (stepT t op) rest).1
            (runPT (step p op).1 (stepT t op) rest).2 l2
      rw [ih]
      rw [and_assoc]

theorem PlayerInv_runPT (ops : List Op) :
    ∀ (p : StreamAudioPlayer) (t : ℚ),
      PlayerInv p t → WFfrom p t ops →
      PlayerInv (runPT p t ops).1 (runPT p t ops).2 := by
  induction ops with
  | nil => intro p t h _; exact h
  | cons op rest ih =>
      intro p t h hwf
      exact ih (step p op).1 (stepT t op)
        (PlayerInv_step h hwf.1) hwf.2

theorem PlayerInv_initial (c : Bool) : PlayerInv (initialPlayer c) 0 := by
  refine ⟨le_refl 0, ?_, ?_, Or.inl (le_refl 0), Or.inl rfl⟩
  · intro b hb; exact absurd hb (List.not_mem_nil b)
  · intro s hs; exact absurd hs (List.not_mem_nil s)

/-- Fields of the player untouched by a successful `addChunk`: everything
except the queue, which grows by exactly the decoded buffer. -/
theorem addChunk_ok_fields {p p1 : StreamAudioPlayer} {bytes : List ℕ}
    {rate : ℚ} (h : p.addChunk bytes rate = Except.ok p1) :
    p1.internalState = p.internalState ∧
    p1.nextStartTime = p.nextStartTime ∧
    p1.scheduledBufferSources = p.scheduledBufferSources ∧
    p1.listeners = p.listeners ∧
    p1.ctxRunning = p.ctxRunning ∧
    ∃ buf, p1.audioBufferQueue = p.audioBufferQueue ++ [buf] := by
  unfold addChunk at h
  by_cases hrs : p.internalState = PlayerState.resetting
  · rw [if_pos hrs] at h
    exact Except.noConfusion h
  · rw [if_neg hrs] at h
    unfold convertBase64ToAudioBuffer at h
    by_cases hodd : bytes.length % 2 ≠ 0
    · rw [if_pos hodd] at h
      exact Except.noConfusion h
    · rw [if_neg hodd] at h
      cases h
      exact ⟨rfl, rfl, rfl, rfl, rfl, _, rfl⟩

theorem handleSourceEnded_fired {p : StreamAudioPlayer} {sid : ℕ} {now : ℚ}
    (h : (p.handleSourceEnded sid now).2.endedFired = true) :
    p.internalState ≠ PlayerState.resetting ∧
    (p.handleSourceEnded sid now).1.internalState = PlayerState.ended ∧
    (p.handleSourceEnded sid now).1.audioBufferQueue = [] ∧
    (p.handleSourceEnded sid now).1.scheduledBufferSources = [] ∧
    (p.handleSourceEnded sid now).2.notified = p.listeners := by
  unfold handleSourceEnded at h ⊢
  by_cases hrs : p.internalState = PlayerState.resetting
  · rw [if_pos hrs] at h
    exact Bool.noConfusion h
  · rw [if_neg hrs] at h ⊢
    dsimp only at h ⊢
    by_cases hboth : removeFirstById p.scheduledBufferSources sid = [] ∧
        p.audioBufferQueue = []
    · rw [if_pos hboth] at h ⊢
      exact ⟨hrs, rfl, hboth.2, hboth.1, rfl⟩
    · rw [if_neg hboth] at h ⊢
      by_cases hqne : p.audioBufferQueue ≠ []
      · rw [if_pos hqne] at h
        exact Bool.noConfusion h
      · rw [if_neg hqne] at h
        exact Bool.noConfusion h

/-- The `ended` event is dispatched only by a completion notification, and
only at the moment the in-flight list and the queue have both become empty;
the step then moves the player to `ended` and notifies exactly the
currently registered listeners. -/
theorem step_fired {p : StreamAudioPlayer} {op : Op}
    (h : (step p op).2.endedFired = true) :
    ∃ sid now, op = Op.complete sid now ∧
      p.internalState ≠ PlayerState.resetting ∧
      (step p op).1.internalState = PlayerState.ended ∧
      (step p op).1.audioBufferQueue = [] ∧
      (step p op).1.scheduledBufferSources = [] ∧
      (step p op).2.notified = p.listeners := by
  cases op with
  | addChunk bytes rate =>
      exfalso
      revert h
      show (match p.addChunk bytes rate with
        | Except.ok p1 => (p1, noOutput)
        | Except.error e =>
            (p, { noOutput with err := some e })).2.endedFired = true → False
      cases p.addChunk bytes rate with
      | ok p1 => intro h; exact Bool.noConfusion h
      | error e => intro h; exact Bool.noConfusion h
  | play now => exact Bool.noConfusion h
  | pause => exact Bool.noConfusion h
  | reset fresh => exact Bool.noConfusion h
  | addListener l => exact Bool.noConfusion h
  | removeListener l => exact Bool.noConfusion h
  | complete sid now =>
      exact ⟨sid, now, rfl, handleSourceEnded_fired h⟩

end TraceLemmas

section StepLemmas

open StreamAudioPlayer

theorem play_listeners (now : ℚ) (p : StreamAudioPlayer) :
    (play now p).listeners = p.listeners := by
  unfold play
  by_cases hpl : p.internalState = PlayerState.playing
  · rw [if_pos hpl]
  · rw [if_neg hpl]
    dsimp only
    by_cases hg : p.scheduledBufferSources = [] ∧ p.audioBufferQueue ≠ []
    · rw [if_pos hg]
      exact (scheduleAux_bookkeeping now _ _).2.1
    · rw [if_neg hg]

theorem pause_fields (p : StreamAudioPlayer) :
    p.pause.listeners = p.listeners ∧
    p.pause.nextStartTime = p.nextStartTime ∧
    p.pause.scheduledBufferSources = p.scheduledBufferSources ∧
    p.pause.audioBufferQueue = p.audioBufferQueue := by
  unfold pause
  by_cases hpl : p.internalState ≠ PlayerState.playing
  · rw [if_pos hpl]
    exact ⟨rfl, rfl, rfl, rfl⟩
  · rw [if_neg hpl]
    exact ⟨rfl, rfl, rfl, rfl⟩

theorem handleSourceEnded_listeners (p : StreamAudioPlayer) (sid : ℕ)
    (now : ℚ) :
    (p.handleSourceEnded sid now).1.listeners = p.listeners := by
  unfold handleSourceEnded
  by_cases hrs : p.internalState = PlayerState.resetting
  · rw [if_pos hrs]
  · rw [if_neg hrs]
    dsimp only
    by_cases hboth : removeFirstById p.scheduledBufferSources sid = [] ∧
        p.audioBufferQueue = []
    · rw [if_pos hboth]
    · rw [if_neg hboth]
      by_cases hqne : p.audioBufferQueue ≠ []
      · rw [if_pos hqne]
        exact (scheduleAux_bookkeeping now _ _).2.1
      · rw [if_neg hqne]

theorem handleSourceEnded_notified (p : StreamAudioPlayer) (sid : ℕ)
    (now : ℚ) :
    (p.handleSourceEnded sid now).2.notified = [] ∨
    (p.handleSourceEnded sid now).2.notified = p.listeners := by
  unfold handleSourceEnded
  by_cases hrs : p.internalState = PlayerState.resetting
  · rw [if_pos hrs]
    exact Or.inl rfl
  · rw [if_neg hrs]
    dsimp only
    by_cases hboth : removeFirstById p.scheduledBufferSources sid = [] ∧
        p.audioBufferQueue = []
    · rw [if_pos hboth]
      exact Or.inr rfl
    · rw [if_neg hboth]
      by_cases hqne : p.audioBufferQueue ≠ []
      · rw [if_pos hqne]
        exact Or.inl rfl
      · rw [if_neg hqne]
        exact Or.inl rfl

theorem step_listeners_not_mem {p : StreamAudioPlayer} {op : Op} {l : ℕ}
    (hl : l ∉ p.listeners)
    (hne : ∀ l2, op = Op.addListener l2 → l2 ≠ l) :
    l ∉ (step p op).1.listeners := by
  cases op with
  | addChunk bytes rate =>
      show l ∉ (match p.addChunk bytes rate with
        | Except.ok p1 => (p1, noOutput)
        | Except.error e => (p, { noOutput with err := some e })).1.listeners
      cases h : p.addChunk bytes rate with
      | ok p1 =>
          rcases addChunk_ok_fields h with ⟨-, -, -, hlst, -, -⟩
          dsimp only
          rw [hlst]
          exact hl
      | error e => exact hl
  | play now =>
      show l ∉ (play now p).listeners
      rw [play_listeners]
      exact hl
  | pause =>
      show l ∉ p.pause.listeners
      rw [(pause_fields p).1]
      exact hl
  | reset fresh => exact List.not_mem_nil l
  | complete sid now =>
      show l ∉ (p.handleSourceEnded sid now).1.listeners
      rw [handleSourceEnded_listeners]
      exact hl
  | addListener l2 =>
      show l ∉ (p.addEventListener l2).listeners
      unfold addEventListener
      by_cases h2 : l2 ∈ p.listeners
      · rw [if_pos h2]
        exact hl
      · rw [if_neg h2]
        intro hmem
        rcases List.mem_append.mp hmem with hm | hm
        · exact hl hm
        · exact hne l2 rfl (List.mem_singleton.mp hm).symm
  | removeListener l2 =>
      intro hmem
      exact hl (List.mem_of_mem_erase hmem)

theorem runPT_listeners_not_mem (ops : List Op) :
    ∀ (p : StreamAudioPlayer) (t : ℚ) (l : ℕ),
      l ∉ p.listeners → Op.addListener l ∉ ops →
      l ∉ (runPT p t ops).1.listeners := by
  induction ops with
  | nil => intro p t l hl _; exact hl
  | cons op rest ih =>
      intro p t l hl hnot
      refine ih (step p op).1 (stepT t op) l ?_ ?_
      · refine step_listeners_not_mem hl ?_
        intro l2 heq hl2
        apply hnot
        rw [heq, hl2]
        exact List.mem_cons_self _ _
      · intro hmem
        exact hnot (List.mem_cons_of_mem _ hmem)

theorem step_notified_not_mem {p : StreamAudioPlayer} {op : Op} {l : ℕ}
    (hl : l ∉ p.listeners) : l ∉ (step p op).2.notified := by
  cases op with
  | addChunk bytes rate =>
      show l ∉ (match p.addChunk bytes rate with
        | Except.ok p1 => (p1, noOutput)
        | Except.error e => (p, { noOutput with err := some e })).2.notified
      cases h : p.addChunk bytes rate with
      | ok p1 => exact List.not_mem_nil l
      | error e => exact List.not_mem_nil l
  | play now => exact List.not_mem_nil l
  | pause => exact List.not_mem_nil l
  | reset fresh => exact List.not_mem_nil l
  | complete sid now =>
      rcases handleSourceEnded_notified p sid now with h | h
      · show l ∉ (p.handleSourceEnded sid now).2.notified
        rw [h]
        exact List.not_mem_nil l
      · show l ∉ (p.handleSourceEnded sid now).2.notified
        rw [h]
        exact hl
  | addListener l2 => exact List.not_mem_nil l
  | removeListener l2 => exact List.not_mem_nil l

theorem step_sources_empty {p : StreamAudioPlayer} {t : ℚ} {op : Op}
    (hempty : p.scheduledBufferSources = [])
    (hnp : ∀ now2, op ≠ Op.play now2) (hwf : WFop p t op) :
    (step p op).1.scheduledBufferSources = [] := by
  cases op with
  | addChunk bytes rate =>
      show (match p.addChunk bytes rate with
        | Except.ok p1 => (p1, noOutput)
        | Except.error e =>
            (p, { noOutput with err := some e })).1.scheduledBufferSources = []
      cases h : p.addChunk bytes rate with
      | ok p1 =>
          rcases addChunk_ok_fields h with ⟨-, -, hsrc, -, -, -⟩
          dsimp only
          rw [hsrc]
          exact hempty
      | error e => exact hempty
  | play now => exact absurd rfl (hnp now)
  | pause =>
      show p.pause.scheduledBufferSources = []
      rw [(pause_fields p).2.2.1]
      exact hempty
  | reset fresh => rfl
  | complete sid now =>
      rcases hwf.2 with ⟨s, hf, -⟩
      rw [hempty] at hf
      exact Option.noConfusion hf
  | addListener l2 =>
      show (p.addEventListener l2).scheduledBufferSources = []
      unfold addEventListener
      by_cases h2 : l2 ∈ p.listeners
      · rw [if_pos h2]
        exact hempty
      · rw [if_neg h2]
        exact hempty
  | removeListener l2 => exact hempty

theorem runPT_sources_empty (ops : List Op) :
    ∀ (p : StreamAudioPlayer) (t : ℚ),
      (∀ now2, Op.play now2 ∉ ops) → WFfrom p t ops →
      p.scheduledBufferSources = [] →
      (runPT p t ops).1.scheduledBufferSources = [] := by
  induction ops with
  | nil => intro p t _ _ h; exact h
  | cons op rest ih =>
      intro p t hnot hwf hempty
      refine ih (step p op).1 (stepT t op) ?_ hwf.2 ?_
      · intro now2 hmem
        exact hnot now2 (List.mem_cons_of_mem _ hmem)
      · refine step_sources_empty hempty ?_ hwf.1
        intro now2 heq
        apply hnot now2
        rw [heq]
        exact List.mem_cons_self _ _

end StepLemmas

section NextMono

open StreamAudioPlayer

theorem play_next_mono {p : StreamAudioPlayer} {t : ℚ} (now : ℚ)
    (hInv : PlayerInv p t) (ht : t ≤ now) :
    p.nextStartTime ≤ (play now p).nextStartTime := by
  rcases hInv with ⟨-, h2, -, h4, -⟩
  unfold play
  by_cases hpl : p.internalState = PlayerState.playing
  · rw [if_pos hpl]
  · rw [if_neg hpl]
    dsimp only
    by_cases hg : p.scheduledBufferSources = [] ∧ p.audioBufferQueue ≠ []
    · rw [if_pos hg]
      have hnext : p.nextStartTime ≤ now := by
        rcases h4 with h | ⟨s, hs, -⟩
        · exact h.trans ht
        · rw [hg.1] at hs
          exact absurd hs (List.not_mem_nil s)
      refine hnext.trans ?_
      exact scheduleAux_next_mono now _ _ h2
    · rw [if_neg hg]

theorem handleSourceEnded_next_mono {p : StreamAudioPlayer} (sid : ℕ)
    (now : ℚ) (h2 : ∀ b ∈ p.audioBufferQueue, 0 ≤ b.duration) :
    p.nextStartTime ≤ (p.handleSourceEnded sid now).1.nextStartTime := by
  unfold handleSourceEnded
  by_cases hrs : p.internalState = PlayerState.resetting
  · rw [if_pos hrs]
  · rw [if_neg hrs]
    dsimp only
    by_cases hboth : removeFirstById p.scheduledBufferSources sid = [] ∧
        p.audioBufferQueue = []
    · rw [if_pos hboth]
    · rw [if_neg hboth]
      by_cases hqne : p.audioBufferQueue ≠ []
      · rw [if_pos hqne]
        exact scheduleAux_next_mono now _ _ h2
      · rw [if_neg hqne]

/-- Outside `reset()` and a `play()` taken in `idle` with an empty
in-flight list, no single control-thread event decreases `nextStartTime`
(in any reachable, well-formed configuration). -/
theorem step_next_mono {p : StreamAudioPlayer} {t : ℚ} {op : Op}
    (hInv : PlayerInv p t) (hwf : WFop p t op)
    (hnr : ∀ f, op ≠ Op.reset f)
    (hnp : ¬ ∃ now2, op = Op.play now2 ∧
      p.internalState = PlayerState.idle ∧
      p.scheduledBufferSources = []) :
    p.nextStartTime ≤ (step p op).1.nextStartTime := by
  cases op with
  | addChunk bytes rate =>
      show p.nextStartTime ≤ (match p.addChunk bytes rate with
        | Except.ok p1 => (p1, noOutput)
        | Except.error e =>
            (p, { noOutput with err := some e })).1.nextStartTime
      cases h : p.addChunk bytes rate with
      | ok p1 =>
          rcases addChunk_ok_fields h with ⟨-, hnext, -, -, -, -⟩
          dsimp only
          rw [hnext]
      | error e => exact le_refl _
  | play now => exact play_next_mono now hInv hwf
  | pause =>
      show p.nextStartTime ≤ p.pause.nextStartTime
      rw [(pause_fields p).2.1]
  | reset fresh => exact absurd rfl (hnr fresh)
  | complete sid now =>
      exact handleSourceEnded_next_mono sid now hInv.2.1
  | addListener l2 =>
      show p.nextStartTime ≤ (p.addEventListener l2).nextStartTime
      unfold addEventListener
      by_cases h2 : l2 ∈ p.listeners
      · rw [if_pos h2]
      · rw [if_neg h2]
  | removeListener l2 => exact le_refl _

end NextMono

section DecoderLemmas

theorem int16Pairs_length : ∀ bytes : List ℕ,
    (int16Pairs bytes).length = bytes.length / 2
  | [] => rfl
  | [x] => by
      show ([] : List ℤ).length = [x].length / 2
      simp
  | lo :: hi :: rest => by
      show (int16Pairs rest).length + 1 = (rest.length + 1 + 1) / 2
      rw [int16Pairs_length rest]
      omega

theorem int16Pairs_spec : ∀ (bytes : List ℕ) (i lo hi : ℕ),
    bytes[2 * i]? = some lo → bytes[2 * i + 1]? = some hi →
    (int16Pairs bytes)[i]? = some (toInt16 lo hi)
  | [], i, lo, hi, h1, _ => by
      rw [List.getElem?_len_le (Nat.zero_le _)] at h1
      exact Option.noConfusion h1
  | [x], i, lo, hi, _, h2 => by
      rw [List.getElem?_len_le (show (1:ℕ) ≤ 2 * i + 1 by omega)] at h2
      exact Option.noConfusion h2
  | lo0 :: hi0 :: rest, 0, lo, hi, h1, h2 => by
      rw [show 2 * 0 = 0 by rfl, List.getElem?_cons_zero] at h1
      rw [show 2 * 0 + 1 = 0 + 1 by rfl, List.getElem?_cons_succ,
        List.getElem?_cons_zero] at h2
      cases h1
      cases h2
      show (toInt16 lo0 hi0 :: int16Pairs rest)[0]? = some (toInt16 lo0 hi0)
      rw [List.getElem?_cons_zero]
  | lo0 :: hi0 :: rest, i + 1, lo, hi, h1, h2 => by
      rw [show 2 * (i + 1) = 2 * i + 1 + 1 by ring,
        List.getElem?_cons_succ, List.getElem?_cons_succ] at h1
      rw [show 2 * (i + 1) + 1 = (2 * i + 1) + 1 + 1 by ring,
        List.getElem?_cons_succ, List.getElem?_cons_succ] at h2
      show (toInt16 lo0 hi0 :: int16Pairs rest)[i + 1]? = some (toInt16 lo hi)
      rw [List.getElem?_cons_succ]
      exact int16Pairs_spec rest i lo hi h1 h2

end DecoderLemmas

section Claims1

open StreamAudioPlayer

/-- C1: within one synchronous drain pass of the scheduler (the recursion of
`scheduleNextBufferSource`, as invoked by `play()` with a non-empty queue or
by a completion callback with a non-empty queue), each newly scheduled
source starts exactly at the previous new source's start plus its duration:
`start[i+1] = start[i] + duration[i]`. -/
theorem c1_same_pass_gapless (now : ℚ) (p : StreamAudioPlayer)
    (hdur : ∀ b ∈ p.audioBufferQueue, 0 ≤ b.duration) :
    ∃ ns : List ScheduledSource,
      (scheduleNextBufferSource now p).scheduledBufferSources
        = p.scheduledBufferSources ++ ns ∧
      List.Chain' abuts ns := by
  rcases scheduleAux_new_sources now p.audioBufferQueue.length p hdur
    with ⟨ns, h1, h2, -, -, -, -, -⟩
  exact ⟨ns, h1, h2⟩

/-- Witness for C1: the specification scenario, three queued buffers of
duration 1/2 each, drained while `playing` at device time 0. -/
theorem c1_same_pass_gapless_witness :
    (∀ b ∈ (⟨[⟨[0, 0, 0, 0], 8⟩, ⟨[0, 0, 0, 0], 8⟩, ⟨[0, 0, 0, 0], 8⟩],
        PlayerState.playing, 0, [], 0, [], true⟩ :
        StreamAudioPlayer).audioBufferQueue, 0 ≤ b.duration) ∧
    ∃ ns : List ScheduledSource,
      (scheduleNextBufferSource 0
          (⟨[⟨[0, 0, 0, 0], 8⟩, ⟨[0, 0, 0, 0], 8⟩, ⟨[0, 0, 0, 0], 8⟩],
            PlayerState.playing, 0, [], 0, [], true⟩ :
            StreamAudioPlayer)).scheduledBufferSources
        = (⟨[⟨[0, 0, 0, 0], 8⟩, ⟨[0, 0, 0, 0], 8⟩, ⟨[0, 0, 0, 0], 8⟩],
            PlayerState.playing, 0, [], 0, [], true⟩ :
            StreamAudioPlayer).scheduledBufferSources ++ ns ∧
      List.Chain' abuts ns := by
  have hdur : ∀ b ∈ (⟨[⟨[0, 0, 0, 0], 8⟩, ⟨[0, 0, 0, 0], 8⟩,
      ⟨[0, 0, 0, 0], 8⟩], PlayerState.playing, 0, [], 0, [], true⟩ :
      StreamAudioPlayer).audioBufferQueue, 0 ≤ b.duration := by
    intro b hb
    simp only [List.mem_cons, List.not_mem_nil, or_false] at hb
    rcases hb with rfl | rfl | rfl <;> norm_num [AudioBuffer.duration]
  exact ⟨hdur, c1_same_pass_gapless 0 _ hdur⟩

/-- C2 counterexample: calling `play()` on a fresh player (state `idle`,
empty queue) does not leave the state `idle` as the claim asserts; the
source sets `internalState` to `playing` unconditionally before inspecting
the queue. -/
theorem c2_counterexample :
    (initialPlayer true).internalState = PlayerState.idle ∧
    (initialPlayer true).audioBufferQueue = [] ∧
    (play 0 (initialPlayer true)).internalState = PlayerState.playing := by
  refine ⟨rfl, rfl, ?_⟩
  norm_num [play, initialPlayer]

/-- C2 amended: calling `play()` while `idle` with an empty queue schedules
no buffer, leaves the queue, `nextStartTime` and the in-flight list
unchanged, and resumes the device clock if suspended, but transitions the
state to `playing` rather than leaving it `idle`. -/
theorem c2_amended (now : ℚ) (p : StreamAudioPlayer)
    (hs : p.internalState = PlayerState.idle)
    (hq : p.audioBufferQueue = []) :
    play now p
      = { p with internalState := PlayerState.playing, ctxRunning := true } := by
  unfold play
  rw [if_neg (by rw [hs]; simp)]
  dsimp only
  rw [if_neg (fun hcond => hcond.2 hq)]

/-- Witness for C2 amended, at a fresh player with a suspended context and
device time 2. -/
theorem c2_amended_witness :
    (initialPlayer false).internalState = PlayerState.idle ∧
    (initialPlayer false).audioBufferQueue = [] ∧
    play 2 (initialPlayer false)
      = { initialPlayer false with
          internalState := PlayerState.playing, ctxRunning := true } :=
  ⟨rfl, rfl, c2_amended 2 (initialPlayer false) rfl rfl⟩

/-- C3: `reset()` always terminates in state `idle` with an empty queue, an
empty in-flight list and `nextStartTime = 0`, from every prior state. -/
theorem c3_reset_postcondition (fresh : Bool) (p : StreamAudioPlayer) :
    (reset fresh p).internalState = PlayerState.idle ∧
    (reset fresh p).audioBufferQueue = [] ∧
    (reset fresh p).scheduledBufferSources = [] ∧
    (reset fresh p).nextStartTime = 0 :=
  ⟨rfl, rfl, rfl, rfl⟩

/-- C4: `addChunk()` while `resetting` fails with `InvalidStateError` and
leaves the player, in particular the queue, completely unchanged. -/
theorem c4_addChunk_resetting (p : StreamAudioPlayer) (bytes : List ℕ)
    (rate : ℚ) (h : p.internalState = PlayerState.resetting) :
    p.addChunk bytes rate = Except.error PlayerError.invalidStateError ∧
    (step p (Op.addChunk bytes rate)).1 = p ∧
    (step p (Op.addChunk bytes rate)).1.audioBufferQueue
      = p.audioBufferQueue := by
  have h1 : p.addChunk bytes rate
      = Except.error PlayerError.invalidStateError := by
    unfold addChunk
    rw [if_pos h]
  refine ⟨h1, ?_, ?_⟩
  · show (match p.addChunk bytes rate with
      | Except.ok p1 => (p1, noOutput)
      | Except.error e => (p, { noOutput with err := some e })).1 = p
    rw [h1]
  · show (match p.addChunk bytes rate with
      | Except.ok p1 => (p1, noOutput)
      | Except.error e =>
          (p, { noOutput with err := some e })).1.audioBufferQueue
      = p.audioBufferQueue
    rw [h1]

/-- Witness for C4 at a concrete resetting player. -/
theorem c4_addChunk_resetting_witness :
    (⟨[], PlayerState.resetting, 0, [], 0, [], true⟩ :
        StreamAudioPlayer).internalState = PlayerState.resetting ∧
    (⟨[], PlayerState.resetting, 0, [], 0, [], true⟩ :
        StreamAudioPlayer).addChunk [1, 2] 3
      = Except.error PlayerError.invalidStateError ∧
    (step (⟨[], PlayerState.resetting, 0, [], 0, [], true⟩ :
        StreamAudioPlayer) (Op.addChunk [1, 2] 3)).1
      = ⟨[], PlayerState.resetting, 0, [], 0, [], true⟩ := by
  have h := c4_addChunk_resetting
    (⟨[], PlayerState.resetting, 0, [], 0, [], true⟩ : StreamAudioPlayer)
    [1, 2] 3 rfl
  exact ⟨rfl, h.1, h.2.1⟩

end Claims1

section Claims2

open StreamAudioPlayer

/-- C7: a payload of `2 * n` bytes decodes successfully into a mono buffer
of exactly `n` samples, where sample `i` is the signed 16-bit little-endian
integer assembled from bytes `2i` (low) and `2i + 1` (high), divided by
`32768`, and the buffer's duration is `n / sampleRate`. -/
theorem c7_decode_linear16 (bytes : List ℕ) (rate : ℚ) (n : ℕ)
    (hlen : bytes.length = 2 * n) :
    ∃ buf : AudioBuffer,
      convertBase64ToAudioBuffer bytes rate = Except.ok buf ∧
      buf.samples.length = n ∧
      (∀ i, i < n → ∃ lo hi : ℕ,
        bytes[2 * i]? = some lo ∧ bytes[2 * i + 1]? = some hi ∧
        buf.samples[i]? = some ((toInt16 lo hi : ℚ) / 32768)) ∧
      buf.duration = (n : ℚ) / rate := by
  have heven : ¬ bytes.length % 2 ≠ 0 := by omega
  refine ⟨⟨(int16Pairs bytes).map (fun v : ℤ => (v : ℚ) / 32768), rate⟩,
    ?_, ?_, ?_, ?_⟩
  · unfold convertBase64ToAudioBuffer
    rw [if_neg heven]
  · show ((int16Pairs bytes).map (fun v : ℤ => (v : ℚ) / 32768)).length = n
    rw [List.length_map, int16Pairs_length, hlen]
    omega
  · intro i hi
    have h2i : 2 * i < bytes.length := by omega
    have h2i1 : 2 * i + 1 < bytes.length := by omega
    refine ⟨bytes[2 * i], bytes[2 * i + 1],
      List.getElem?_eq_getElem h2i, List.getElem?_eq_getElem h2i1, ?_⟩
    show ((int16Pairs bytes).map (fun v : ℤ => (v : ℚ) / 32768))[i]? = _
    rw [List.getElem?_map, int16Pairs_spec bytes i _ _
      (List.getElem?_eq_getElem h2i) (List.getElem?_eq_getElem h2i1)]
    rfl
  · show ((((int16Pairs bytes).map (fun v : ℤ => (v : ℚ) / 32768)).length : ℚ))
        / rate = (n : ℚ) / rate
    rw [List.length_map, int16Pairs_length, hlen,
      show 2 * n / 2 = n by omega]

/-- Witness for C7: four bytes at rate 2 decode to the two samples
`1 / 32768` and `-1 / 32768` with duration 1. -/
theorem c7_decode_linear16_witness :
    ([1, 0, 255, 255] : List ℕ).length = 2 * 2 ∧
    ∃ buf : AudioBuffer,
      convertBase64ToAudioBuffer [1, 0, 255, 255] 2 = Except.ok buf ∧
      buf.samples.length = 2 ∧
      (∀ i, i < 2 → ∃ lo hi : ℕ,
        ([1, 0, 255, 255] : List ℕ)[2 * i]? = some lo ∧
        ([1, 0, 255, 255] : List ℕ)[2 * i + 1]? = some hi ∧
        buf.samples[i]? = some ((toInt16 lo hi : ℚ) / 32768)) ∧
      buf.duration = (2 : ℚ) / 2 :=
  ⟨rfl, c7_decode_linear16 [1, 0, 255, 255] 2 2 rfl⟩

/-- C8: a payload with an odd number of bytes fails to decode with
`DecodeError`; the `addChunk()` call that attempted it (outside
`resetting`) fails with that error and leaves the player, in particular
the queue, unchanged. -/
theorem c8_odd_payload (p : StreamAudioPlayer) (bytes : List ℕ) (rate : ℚ)
    (hodd : bytes.length % 2 = 1)
    (hrs : p.internalState ≠ PlayerState.resetting) :
    convertBase64ToAudioBuffer bytes rate
      = Except.error PlayerError.decodeError ∧
    p.addChunk bytes rate = Except.error PlayerError.decodeError ∧
    (step p (Op.addChunk bytes rate)).1 = p ∧
    (step p (Op.addChunk bytes rate)).1.audioBufferQueue
      = p.audioBufferQueue := by
  have hc : convertBase64ToAudioBuffer bytes rate
      = Except.error PlayerError.decodeError := by
    unfold convertBase64ToAudioBuffer
    rw [if_pos (by omega)]
  have ha : p.addChunk bytes rate = Except.error PlayerError.decodeError := by
    unfold addChunk
    rw [if_neg hrs, hc]
  refine ⟨hc, ha, ?_, ?_⟩
  · show (match p.addChunk bytes rate with
      | Except.ok p1 => (p1, noOutput)
      | Except.error e => (p, { noOutput with err := some e })).1 = p
    rw [ha]
  · show (match p.addChunk bytes rate with
      | Except.ok p1 => (p1, noOutput)
      | Except.error e =>
          (p, { noOutput with err := some e })).1.audioBufferQueue
      = p.audioBufferQueue
    rw [ha]

/-- Witness for C8: a single-byte payload on a fresh player. -/
theorem c8_odd_payload_witness :
    ([0] : List ℕ).length % 2 = 1 ∧
    (initialPlayer true).internalState ≠ PlayerState.resetting ∧
    convertBase64ToAudioBuffer [0] 1 = Except.error PlayerError.decodeError ∧
    (initialPlayer true).addChunk [0] 1
      = Except.error PlayerError.decodeError ∧
    (step (initialPlayer true) (Op.addChunk [0] 1)).1 = initialPlayer true := by
  have hrs : (initialPlayer true).internalState ≠ PlayerState.resetting := by
    simp [initialPlayer]
  have h := c8_odd_payload (initialPlayer true) [0] 1 rfl hrs
  exact ⟨rfl, hrs, h.1, h.2.1, h.2.2.1⟩

/-- C10: `ended` is not terminal — `play()` in state `ended` transitions to
`playing`, and when the queue is non-empty with nothing in flight it
restarts scheduling by rebasing `nextStartTime` to the current device time,
so the first newly scheduled source starts exactly at `now`. -/
theorem c10_play_after_ended (now : ℚ) (p : StreamAudioPlayer)
    (hst : p.internalState = PlayerState.ended)
    (hdur : ∀ b ∈ p.audioBufferQueue, 0 ≤ b.duration) :
    (play now p).internalState = PlayerState.playing ∧
    (p.audioBufferQueue ≠ [] → p.scheduledBufferSources = [] →
      play now p = scheduleNextBufferSource now
        { p with
          internalState := PlayerState.playing
          ctxRunning := true
          nextStartTime := now } ∧
      ∃ s tl, (play now p).scheduledBufferSources = s :: tl ∧
        s.startTime = now) := by
  have hne : p.internalState ≠ PlayerState.playing := by
    rw [hst]; simp
  constructor
  · unfold play
    rw [if_neg hne]
    dsimp only
    by_cases hg : p.scheduledBufferSources = [] ∧ p.audioBufferQueue ≠ []
    · rw [if_pos hg]
      exact (scheduleAux_bookkeeping now _ _).1
    · rw [if_neg hg]
  · intro hq hs
    have hplay : play now p = scheduleNextBufferSource now
        { p with
          internalState := PlayerState.playing
          ctxRunning := true
          nextStartTime := now } := by
      unfold play
      rw [if_neg hne]
      dsimp only
      rw [if_pos ⟨hs, hq⟩]
    refine ⟨hplay, ?_⟩
    rcases scheduleAux_new_sources now p.audioBufferQueue.length
        { p with
          internalState := PlayerState.playing
          ctxRunning := true
          nextStartTime := now } hdur
      with ⟨ns, h1, -, h3, -, -, -, h7⟩
    have hns : ns ≠ [] := h7 rfl hq (le_refl _)
    rcases hns2 : ns with - | ⟨s, tl⟩
    · exact absurd hns2 hns
    · refine ⟨s, tl, ?_, ?_⟩
      · rw [hplay]
        show (scheduleNextBufferSourceAux now _ _).scheduledBufferSources
          = s :: tl
        rw [h1, hs, hns2]
        rfl
      · have := h3 s (by rw [hns2]; rfl)
        rw [this]
        show max now now = now
        rw [max_self]

/-- Witness for C10: a player in state `ended` with one queued buffer of
duration 2 and stale `nextStartTime = 5`; `play()` at device time 7
restarts scheduling at 7. -/
theorem c10_play_after_ended_witness :
    (⟨[⟨[0, 0], 1⟩], PlayerState.ended, 5, [], 3, [], false⟩ :
        StreamAudioPlayer).internalState = PlayerState.ended ∧
    (∀ b ∈ (⟨[⟨[0, 0], 1⟩], PlayerState.ended, 5, [], 3, [], false⟩ :
        StreamAudioPlayer).audioBufferQueue, 0 ≤ b.duration) ∧
    ((play 7 (⟨[⟨[0, 0], 1⟩], PlayerState.ended, 5, [], 3, [], false⟩ :
        StreamAudioPlayer)).internalState = PlayerState.playing ∧
      ((⟨[⟨[0, 0], 1⟩], PlayerState.ended, 5, [], 3, [], false⟩ :
          StreamAudioPlayer).audioBufferQueue ≠ [] →
        (⟨[⟨[0, 0], 1⟩], PlayerState.ended, 5, [], 3, [], false⟩ :
          StreamAudioPlayer).scheduledBufferSources = [] →
        play 7 (⟨[⟨[0, 0], 1⟩], PlayerState.ended, 5, [], 3, [], false⟩ :
            StreamAudioPlayer)
          = scheduleNextBufferSource 7
              { (⟨[⟨[0, 0], 1⟩], PlayerState.ended, 5, [], 3, [], false⟩ :
                  StreamAudioPlayer) with
                internalState := PlayerState.playing
                ctxRunning := true
                nextStartTime := 7 } ∧
        ∃ s tl,
          (play 7 (⟨[⟨[0, 0], 1⟩], PlayerState.ended, 5, [], 3, [], false⟩ :
              StreamAudioPlayer)).scheduledBufferSources = s :: tl ∧
          s.startTime = 7)) := by
  have hdur : ∀ b ∈ (⟨[⟨[0, 0], 1⟩], PlayerState.ended, 5, [], 3, [], false⟩ :
      StreamAudioPlayer).audioBufferQueue, 0 ≤ b.duration := by
    intro b hb
    simp only [List.mem_cons, List.not_mem_nil, or_false] at hb
    rcases hb with rfl
    norm_num [AudioBuffer.duration]
  exact ⟨rfl, hdur, c10_play_after_ended 7 _ rfl hdur⟩

end Claims2

section Claims3

open StreamAudioPlayer

/-- C6: along any well-formed event sequence from a fresh player, no
operation or completion callback decreases `nextStartTime`, except possibly
a `play()` taken while `idle` with an empty in-flight list, or a
`reset()`. -/
theorem c6_nextStartTime_monotone (c : Bool) (pre post : List Op) (op : Op)
    (hwf : WFfrom (initialPlayer c) 0 (pre ++ op :: post))
    (hnr : ∀ f, op ≠ Op.reset f)
    (hnp : ¬ ∃ now2, op = Op.play now2 ∧
      (playerAfter c pre).internalState = PlayerState.idle ∧
      (playerAfter c pre).scheduledBufferSources = []) :
    (playerAfter c pre).nextStartTime
      ≤ (step (playerAfter c pre) op).1.nextStartTime := by
  have hsplit := (WFfrom_append pre (op :: post) (initialPlayer c) 0).mp hwf
  have hInv := PlayerInv_runPT pre (initialPlayer c) 0
    (PlayerInv_initial c) hsplit.1
  exact step_next_mono hInv hsplit.2.1 hnr hnp

/-- C9: after a `reset()`, a listener that is not re-registered is never
notified by any later `ended` dispatch — the notifier was replaced
wholesale.  (`l` registered before the reset, no `addEventListener` for `l`
between the reset and the observed event.) -/
theorem c9_listeners_dropped_on_reset (c : Bool) (l : ℕ) (fresh : Bool)
    (pre mid : List Op) (op : Op)
    (hreg : l ∈ (playerAfter c pre).listeners)
    (hmid : Op.addListener l ∉ mid) :
    l ∉ (step (playerAfter c (pre ++ Op.reset fresh :: mid)) op).2.notified := by
  refine step_notified_not_mem ?_
  have h1 : playerAfter c (pre ++ Op.reset fresh :: mid)
      = (runPT (step (runPT (initialPlayer c) 0 pre).1 (Op.reset fresh)).1
          (stepT (runPT (initialPlayer c) 0 pre).2 (Op.reset fresh)) mid).1 := by
    unfold playerAfter
    rw [runPT_append]
    rfl
  rw [h1]
  refine runPT_listeners_not_mem mid _ _ l ?_ hmid
  exact List.not_mem_nil l

end Claims3

section Claims4

open StreamAudioPlayer

/-- C5 amended: along any well-formed event sequence, (1) whenever a step
dispatches `ended`, that step is a completion notification processed in
state `playing` or `paused` (paused when the final completion is delivered
after a `pause()`), and it leaves the player in state `ended` with queue
and in-flight list simultaneously empty; (2) `pause()` and `reset()` steps
never dispatch `ended`; (3) `ended` is dispatched at most once per
play-through: two dispatching steps must have a `play()` between them. -/
theorem c5_ended_emission (c : Bool) (pre mid post : List Op) (op1 op2 : Op)
    (hwf : WFfrom (initialPlayer c) 0
      (pre ++ op1 :: (mid ++ op2 :: post))) :
    ((step (playerAfter c pre) op1).2.endedFired = true →
      (∃ sid now, op1 = Op.complete sid now) ∧
      ((playerAfter c pre).internalState = PlayerState.playing ∨
        (playerAfter c pre).internalState = PlayerState.paused) ∧
      (step (playerAfter c pre) op1).1.internalState = PlayerState.ended ∧
      (step (playerAfter c pre) op1).1.audioBufferQueue = [] ∧
      (step (playerAfter c pre) op1).1.scheduledBufferSources = []) ∧
    ((op1 = Op.pause ∨ ∃ f, op1 = Op.reset f) →
      (step (playerAfter c pre) op1).2.endedFired = false) ∧
    ((step (playerAfter c pre) op1).2.endedFired = true →
      (step (playerAfter c (pre ++ op1 :: mid)) op2).2.endedFired = true →
      ∃ now2, Op.play now2 ∈ mid) := by
  have hsplit1 := (WFfrom_append pre (op1 :: (mid ++ op2 :: post))
    (initialPlayer c) 0).mp hwf
  have hwfop1 := hsplit1.2.1
  have hsplit2 := (WFfrom_append mid (op2 :: post)
    (step (runPT (initialPlayer c) 0 pre).1 op1).1
    (stepT (runPT (initialPlayer c) 0 pre).2 op1)).mp hsplit1.2.2
  have hpa : playerAfter c (pre ++ op1 :: mid)
      = (runPT (step (runPT (initialPlayer c) 0 pre).1 op1).1
          (stepT (runPT (initialPlayer c) 0 pre).2 op1) mid).1 := by
    unfold playerAfter
    rw [runPT_append]
    rfl
  refine ⟨?_, ?_, ?_⟩
  · intro hfired
    rcases step_fired hfired with ⟨sid, now, hop1, -, hended, hqe, hse, -⟩
    refine ⟨⟨sid, now, hop1⟩, ?_, hended, hqe, hse⟩
    have hInv := PlayerInv_runPT pre (initialPlayer c) 0
      (PlayerInv_initial c) hsplit1.1
    rcases hInv with ⟨-, -, -, -, h5⟩
    rcases h5 with hempty | h
    · exfalso
      rw [hop1] at hwfop1
      rcases hwfop1.2 with ⟨s, hf, -⟩
      rw [hempty] at hf
      exact Option.noConfusion hf
    · exact h
  · intro hpr
    rcases hpr with h | ⟨f, h⟩
    · rw [h]
      rfl
    · rw [h]
      rfl
  · intro hf1 hf2
    by_contra hcon
    push_neg at hcon
    rcases step_fired hf1 with ⟨sid, now, hop1, -, -, -, hse, -⟩
    have hmidempty := runPT_sources_empty mid
      (step (runPT (initialPlayer c) 0 pre).1 op1).1
      (stepT (runPT (initialPlayer c) 0 pre).2 op1) hcon hsplit2.1 hse
    rw [hpa] at hf2
    rcases step_fired hf2 with ⟨sid2, now2, hop2, -, -, -, -⟩
    have hwfop2 := hsplit2.2.1
    rw [hop2] at hwfop2
    rcases hwfop2.2 with ⟨s, hf, -⟩
    rw [hmidempty] at hf
    exact Option.noConfusion hf

end Claims4

section Claims5

open StreamAudioPlayer

/-- C5 counterexample: a well-formed sequence in which a buffer finishes
rendering, the caller's `pause()` is processed first, and the completion
notification is processed afterwards (state `paused`).  The completion
still transitions the player to `ended` and dispatches the event, so the
transition to `ended` is not made only from `playing` as the claim
states. -/
theorem c5_counterexample :
    WFfrom (initialPlayer true) 0
      [Op.addChunk [0, 0] 1, Op.play 0, Op.pause, Op.complete 0 1] ∧
    (playerAfter true
      [Op.addChunk [0, 0] 1, Op.play 0, Op.pause]).internalState
      = PlayerState.paused ∧
    (step (playerAfter true [Op.addChunk [0, 0] 1, Op.play 0, Op.pause])
      (Op.complete 0 1)).2.endedFired = true ∧
    (step (playerAfter true [Op.addChunk [0, 0] 1, Op.play 0, Op.pause])
      (Op.complete 0 1)).1.internalState = PlayerState.ended := by
  refine ⟨?_, rfl, rfl, rfl⟩
  refine ⟨?_, ?_, ?_, ?_, trivial⟩
  · show (0:ℚ) < 1
    norm_num
  · show (0:ℚ) ≤ 0
    norm_num
  · trivial
  · refine ⟨?_, ?_⟩
    · show max (0:ℚ) 0 ≤ 1
      norm_num
    · refine ⟨⟨0, ⟨[((0:ℤ) : ℚ)/32768], 1⟩, max 0 0⟩, rfl, ?_⟩
      show max (0:ℚ) 0 + (1:ℚ)/1 ≤ 1
      norm_num

/-- Witness for C5, on the counterexample's trace extended by a trailing
listener registration as the second observed step. -/
theorem c5_ended_emission_witness :
    WFfrom (initialPlayer true) 0
      ([Op.addChunk [0, 0] 1, Op.play 0, Op.pause] ++ Op.complete 0 1 ::
        ([] ++ Op.addListener 0 :: [])) ∧
    (((step (playerAfter true [Op.addChunk [0, 0] 1, Op.play 0, Op.pause])
        (Op.complete 0 1)).2.endedFired = true →
      (∃ sid now, Op.complete 0 1 = Op.complete sid now) ∧
      ((playerAfter true [Op.addChunk [0, 0] 1, Op.play 0,
          Op.pause]).internalState = PlayerState.playing ∨
        (playerAfter true [Op.addChunk [0, 0] 1, Op.play 0,
          Op.pause]).internalState = PlayerState.paused) ∧
      (step (playerAfter true [Op.addChunk [0, 0] 1, Op.play 0, Op.pause])
        (Op.complete 0 1)).1.internalState = PlayerState.ended ∧
      (step (playerAfter true [Op.addChunk [0, 0] 1, Op.play 0, Op.pause])
        (Op.complete 0 1)).1.audioBufferQueue = [] ∧
      (step (playerAfter true [Op.addChunk [0, 0] 1, Op.play 0, Op.pause])
        (Op.complete 0 1)).1.scheduledBufferSources = []) ∧
    ((Op.complete 0 1 = Op.pause ∨ ∃ f, Op.complete 0 1 = Op.reset f) →
      (step (playerAfter true [Op.addChunk [0, 0] 1, Op.play 0, Op.pause])
        (Op.complete 0 1)).2.endedFired = false) ∧
    ((step (playerAfter true [Op.addChunk [0, 0] 1, Op.play 0, Op.pause])
        (Op.complete 0 1)).2.endedFired = true →
      (step (playerAfter true ([Op.addChunk [0, 0] 1, Op.play 0, Op.pause]
          ++ Op.complete 0 1 :: [])) (Op.addListener 0)).2.endedFired = true →
      ∃ now2, Op.play now2 ∈ ([] : List Op))) := by
  have hwf : WFfrom (initialPlayer true) 0
      ([Op.addChunk [0, 0] 1, Op.play 0, Op.pause] ++ Op.complete 0 1 ::
        ([] ++ Op.addListener 0 :: [])) := by
    refine ⟨?_, ?_, ?_, ?_, ?_, trivial⟩
    · show (0:ℚ) < 1
      norm_num
    · show (0:ℚ) ≤ 0
      norm_num
    · trivial
    · refine ⟨?_, ?_⟩
      · show max (0:ℚ) 0 ≤ 1
        norm_num
      · refine ⟨⟨0, ⟨[((0:ℤ) : ℚ)/32768], 1⟩, max 0 0⟩, rfl, ?_⟩
        show max (0:ℚ) 0 + (1:ℚ)/1 ≤ 1
        norm_num
    · trivial
  exact ⟨hwf, c5_ended_emission true
    [Op.addChunk [0, 0] 1, Op.play 0, Op.pause] [] []
    (Op.complete 0 1) (Op.addListener 0) hwf⟩

/-- Witness for C6: one buffer scheduled and completed; at the completion
step `nextStartTime` does not decrease. -/
theorem c6_nextStartTime_monotone_witness :
    WFfrom (initialPlayer true) 0
      ([Op.addChunk [0, 0] 1, Op.play 0] ++ Op.complete 0 1 :: []) ∧
    (∀ f, Op.complete 0 1 ≠ Op.reset f) ∧
    (¬ ∃ now2, Op.complete 0 1 = Op.play now2 ∧
      (playerAfter true
        [Op.addChunk [0, 0] 1, Op.play 0]).internalState
        = PlayerState.idle ∧
      (playerAfter true
        [Op.addChunk [0, 0] 1, Op.play 0]).scheduledBufferSources = []) ∧
    (playerAfter true [Op.addChunk [0, 0] 1, Op.play 0]).nextStartTime
      ≤ (step (playerAfter true [Op.addChunk [0, 0] 1, Op.play 0])
          (Op.complete 0 1)).1.nextStartTime := by
  have hwf : WFfrom (initialPlayer true) 0
      ([Op.addChunk [0, 0] 1, Op.play 0] ++ Op.complete 0 1 :: []) := by
    refine ⟨?_, ?_, ?_, trivial⟩
    · show (0:ℚ) < 1
      norm_num
    · show (0:ℚ) ≤ 0
      norm_num
    · refine ⟨?_, ?_⟩
      · show max (0:ℚ) 0 ≤ 1
        norm_num
      · refine ⟨⟨0, ⟨[((0:ℤ) : ℚ)/32768], 1⟩, max 0 0⟩, rfl, ?_⟩
        show max (0:ℚ) 0 + (1:ℚ)/1 ≤ 1
        norm_num
  have hnr : ∀ f, Op.complete 0 1 ≠ Op.reset f := by
    intro f h
    exact Op.noConfusion h
  have hnp : ¬ ∃ now2, Op.complete 0 1 = Op.play now2 ∧
      (playerAfter true
        [Op.addChunk [0, 0] 1, Op.play 0]).internalState
        = PlayerState.idle ∧
      (playerAfter true
        [Op.addChunk [0, 0] 1, Op.play 0]).scheduledBufferSources = [] := by
    rintro ⟨now2, h, -, -⟩
    exact Op.noConfusion h
  exact ⟨hwf, hnr, hnp, c6_nextStartTime_monotone true
    [Op.addChunk [0, 0] 1, Op.play 0] [] (Op.complete 0 1) hwf hnr hnp⟩

/-- Witness for C9: listener 5 is registered, the player is reset, a chunk
is added and played to completion; the `ended` dispatch that follows the
reset does not notify listener 5. -/
theorem c9_listeners_dropped_on_reset_witness :
    5 ∈ (playerAfter true [Op.addListener 5]).listeners ∧
    Op.addListener 5 ∉ [Op.addChunk [0, 0] 1, Op.play 0] ∧
    5 ∉ (step (playerAfter true ([Op.addListener 5] ++ Op.reset true ::
        [Op.addChunk [0, 0] 1, Op.play 0]))
      (Op.complete 0 1)).2.notified := by
  have hreg : 5 ∈ (playerAfter true [Op.addListener 5]).listeners := by
    show (5:ℕ) ∈ [5]
    exact List.mem_singleton.mpr rfl
  have hmid : Op.addListener 5 ∉ [Op.addChunk [0, 0] 1, Op.play 0] := by
    simp
  exact ⟨hreg, hmid, c9_listeners_dropped_on_reset true 5 true
    [Op.addListener 5] [Op.addChunk [0, 0] 1, Op.play 0]
    (Op.complete 0 1) hreg hmid⟩

end Claims5
